import Mathlib

/-!
Shallow embedding of the selector-synthesizer core of the GherkinGenerator
browser extension (src/content/content_script.ts), together with proofs of
the testable properties stated in its design specification.

Conventions of the embedding:
- DOM strings are Lean String values; machine text APIs are modelled at the
  character-list level so that every definition is executable and kernel
  reducible.
- A nullable DOM string (getAttribute result, accessible name, role) is an
  Option String.  JavaScript truthiness of such a value is: present and
  non-empty.
- The regex replace of runs of whitespace by one space followed by trim is
  modelled by splitting into maximal non-whitespace tokens and joining with
  single spaces, which yields the identical string.
- The JavaScript string toLowerCase is modelled with Char.toLower, which
  agrees with it on the ASCII range; the characters the key builder keeps
  before lowercasing are ASCII.
-/

/-- Maximal non-whitespace tokens of a character list; the accumulator holds
the current token in reverse.  Models the token list produced by
split on a whitespace regex followed by filtering out empty strings. -/
def wordsAux : List Char → List Char → List (List Char)
  | [], acc => if acc.isEmpty then [] else [acc.reverse]
  | c :: cs, acc =>
    if c.isWhitespace then
      if acc.isEmpty then wordsAux cs [] else acc.reverse :: wordsAux cs []
    else wordsAux cs (c :: acc)

/-- Maximal non-whitespace tokens of a character list. -/
def wordsOf (cs : List Char) : List (List Char) := wordsAux cs []

/-- Joins character-list tokens with a single separator character. -/
def joinWith (sep : Char) : List (List Char) → List Char
  | [] => []
  | [w] => w
  | w :: ws => w ++ sep :: joinWith sep ws

/-- Translation of normalizeWhitespace: value.replace of whitespace runs by
one space, then trim.  Collapsing runs to single spaces and trimming the ends
is the same as joining the maximal non-whitespace tokens with single
spaces. -/
def normalizeWhitespace (s : String) : String :=
  String.mk (joinWith ' ' (wordsOf s.data))

/-- Character-level trim of leading and trailing whitespace, modelling the
JavaScript String trim method. -/
def trimChars (cs : List Char) : List Char :=
  ((cs.dropWhile Char.isWhitespace).reverse.dropWhile Char.isWhitespace).reverse

/-- String wrapper of trimChars. -/
def trimStr (s : String) : String := String.mk (trimChars s.data)

/-- Translation of escapeQuotes: value.replace of every single quote by a
backslash-quote pair. -/
def escapeQuotes (s : String) : String :=
  String.mk (s.data.flatMap (fun c => if c = '\x27' then ['\\', '\x27'] else [c]))

/-- Translation of cssEscape: every character outside ASCII letters, digits,
underscore and hyphen is preceded by a backslash. -/
def cssEscape (s : String) : String :=
  String.mk (s.data.flatMap
    (fun c => if c.isAlphanum || c = '_' || c = '-' then [c] else ['\\', c]))

/-- JavaScript truthiness of a nullable string: present and non-empty. -/
def truthyOpt : Option String → Bool
  | none => false
  | some s => s != ""

/-- Character-level string lowering, modelling the JavaScript toLowerCase
call on the ASCII range where the source applies it. -/
def strToLower (s : String) : String := String.mk (s.data.map Char.toLower)

/-- Kind tag of a selector candidate, matching the SelectorCandidate union in
the source. -/
inductive SelKind where
  | byRole
  | byLabel
  | byPlaceholder
  | byTestId
  | byText
  | css
deriving DecidableEq, Repr

/-- Rendering of a selector kind as the string literal used in the source. -/
def kindStr : SelKind → String
  | SelKind.byRole => "byRole"
  | SelKind.byLabel => "byLabel"
  | SelKind.byPlaceholder => "byPlaceholder"
  | SelKind.byTestId => "byTestId"
  | SelKind.byText => "byText"
  | SelKind.css => "css"

/-- Translation of the SelectorCandidate record type. -/
structure SelectorCandidate where
  kind : SelKind
  selector : String
  reason : String
deriving DecidableEq, Repr

/-- Per-node data consulted by the CSS fallback walk: the DOM tagName (as
stored by the browser, uppercase for HTML elements), the className string,
the classList, and the tagNames of the siblings that precede and follow the
node inside its parent element.  The sibling fields are meaningful only when
the node has a parent element. -/
structure CNode where
  tag : String
  className : String
  classList : List String
  sibBefore : List String
  sibAfter : List String
deriving DecidableEq, Repr

/-- Ancestor chain of an element: nil models a null parentElement, cons gives
the data of the current element together with the chain above it. -/
inductive Chain where
  | nil : Chain
  | cons : CNode → Chain → Chain
deriving DecidableEq, Repr

/-- Model of a DOM element as read by the synthesizer: its walk data and
ancestor chain, its id, its attribute map (only present attributes listed),
the input type property, truthiness of the href property, whether it is an
HTMLImageElement, whether it is an HTMLElement, its textContent and
outerHTML, the dataset testid entry, and the textContent of the closest
label ancestor when one exists. -/
structure Elem where
  cnode : CNode
  parent : Chain
  id : String
  attrs : List (String × String)
  inputType : String
  hrefTruthy : Bool
  isImage : Bool
  isHTMLElement : Bool
  textContent : String
  outerHTML : String
  datasetTestid : Option String
  closestLabelText : Option String
deriving DecidableEq, Repr

/-- Read access to the document tree as consulted by the synthesizer: the
textContent of the element with a given id, the textContent of the first
label element whose for attribute is a given id, and the textContent of
every element in the body subtree. -/
structure Doc where
  idText : List (String × String)
  labelFor : List (String × String)
  bodyTexts : List String
deriving DecidableEq, Repr

/-- Translation of element.getAttribute: the value when the attribute is
present, null otherwise. -/
def getAttr (e : Elem) (n : String) : Option String :=
  (e.attrs.find? (fun p => p.1 == n)).map (fun p => p.2)

/-- Translation of getRole.  An explicit truthy role attribute is returned
verbatim; otherwise the fixed tag and input-type table applies. -/
def getRole (e : Elem) : Option String :=
  if truthyOpt (getAttr e "role") then getAttr e "role"
  else
    if strToLower e.cnode.tag = "button" then some "button"
    else if strToLower e.cnode.tag = "a" ∧ e.hrefTruthy then some "link"
    else if strToLower e.cnode.tag = "img" then some "img"
    else if strToLower e.cnode.tag = "input" then
      if e.inputType = "checkbox" then some "checkbox"
      else if e.inputType = "radio" then some "radio"
      else if e.inputType = "submit" ∨ e.inputType = "button" then some "button"
      else some "textbox"
    else if strToLower e.cnode.tag = "textarea" then some "textbox"
    else if strToLower e.cnode.tag = "select" then some "combobox"
    else none

/-- Lookup of document.getElementById followed by reading textContent with a
fallback to the empty string. -/
def lookupIdText (d : Doc) (i : String) : String :=
  match d.idText.find? (fun p => p.1 == i) with
  | some p => p.2
  | none => ""

/-- Concatenated referenced text of an aria-labelledby value: the attribute
is split on whitespace, each id is resolved to the textContent of the
element carrying it, the pieces are joined with spaces and the result is
trimmed.  The JavaScript split on a whitespace-run regex can also produce
boundary empty strings; these resolve to empty text and are absorbed by the
join and trim, so the token list used here gives the identical result. -/
def labelledByText (d : Doc) (lb : String) : String :=
  trimStr (String.intercalate " "
    ((wordsOf lb.data).map (fun cs => lookupIdText d (String.mk cs))))

/-- Translation of findLabelText: for an HTMLElement with an id, the
textContent of the first label whose for attribute matches the id wins when
truthy; otherwise the textContent of the closest label ancestor when
truthy; otherwise null.  The source escapes the id before embedding it in
the query; the model looks the id up directly. -/
def findLabelText (d : Doc) (e : Elem) : Option String :=
  if ¬ e.isHTMLElement then none
  else
    match
      (if e.id ≠ "" then
        match d.labelFor.find? (fun p => p.1 == e.id) with
        | some p => if p.2 ≠ "" then some p.2 else none
        | none => none
      else none) with
    | some t => some t
    | none =>
      match e.closestLabelText with
      | some t => if t ≠ "" then some t else none
      | none => none

/-- Continuation of getAccessibleName after the title attribute: the trimmed
own textContent when truthy, normalized. -/
def nameStage7 (e : Elem) : Option String :=
  if trimStr e.textContent = "" then none
  else some (normalizeWhitespace (trimStr e.textContent))

/-- Continuation of getAccessibleName after placeholder: the title attribute
when truthy, normalized; otherwise the textContent stage. -/
def nameStage6 (e : Elem) : Option String :=
  match getAttr e "title" with
  | some s => if s = "" then nameStage7 e else some (normalizeWhitespace s)
  | none => nameStage7 e

/-- Continuation of getAccessibleName after the label text: the placeholder
attribute when truthy, normalized; otherwise the title stage. -/
def nameStage5 (e : Elem) : Option String :=
  match getAttr e "placeholder" with
  | some s => if s = "" then nameStage6 e else some (normalizeWhitespace s)
  | none => nameStage6 e

/-- Continuation of getAccessibleName after alt: the associated label text
when truthy, normalized; otherwise the placeholder stage. -/
def nameStage4 (d : Doc) (e : Elem) : Option String :=
  match findLabelText d e with
  | some t => if t = "" then nameStage5 e else some (normalizeWhitespace t)
  | none => nameStage5 e

/-- Continuation of getAccessibleName after aria-labelledby: the alt
attribute of an image when truthy, normalized; otherwise the label stage. -/
def nameStage3 (d : Doc) (e : Elem) : Option String :=
  if e.isImage then
    match getAttr e "alt" with
    | some s => if s = "" then nameStage4 d e else some (normalizeWhitespace s)
    | none => nameStage4 d e
  else nameStage4 d e

/-- Continuation of getAccessibleName after aria-label: the concatenated
aria-labelledby text when the attribute is truthy and the resolved text is
non-empty, normalized; otherwise the alt stage. -/
def nameStage2 (d : Doc) (e : Elem) : Option String :=
  match getAttr e "aria-labelledby" with
  | some lb =>
    if lb = "" then nameStage3 d e
    else
      if labelledByText d lb = "" then nameStage3 d e
      else some (normalizeWhitespace (labelledByText d lb))
  | none => nameStage3 d e

/-- Translation of getAccessibleName: the aria-label attribute when truthy,
normalized; otherwise the fall-through chain of the remaining signals. -/
def getAccessibleName (d : Doc) (e : Elem) : Option String :=
  match getAttr e "aria-label" with
  | some s => if s = "" then nameStage2 d e else some (normalizeWhitespace s)
  | none => nameStage2 d e

/-- Raw source text of the textContent stage, before normalization. -/
def srcStage7 (e : Elem) : Option String :=
  if trimStr e.textContent = "" then none else some (trimStr e.textContent)

/-- Raw source text of the title stage, before normalization. -/
def srcStage6 (e : Elem) : Option String :=
  match getAttr e "title" with
  | some s => if s = "" then srcStage7 e else some s
  | none => srcStage7 e

/-- Raw source text of the placeholder stage, before normalization. -/
def srcStage5 (e : Elem) : Option String :=
  match getAttr e "placeholder" with
  | some s => if s = "" then srcStage6 e else some s
  | none => srcStage6 e

/-- Raw source text of the label stage, before normalization. -/
def srcStage4 (d : Doc) (e : Elem) : Option String :=
  match findLabelText d e with
  | some t => if t = "" then srcStage5 e else some t
  | none => srcStage5 e

/-- Raw source text of the alt stage, before normalization. -/
def srcStage3 (d : Doc) (e : Elem) : Option String :=
  if e.isImage then
    match getAttr e "alt" with
    | some s => if s = "" then srcStage4 d e else some s
    | none => srcStage4 d e
  else srcStage4 d e

/-- Raw source text of the aria-labelledby stage, before normalization. -/
def srcStage2 (d : Doc) (e : Elem) : Option String :=
  match getAttr e "aria-labelledby" with
  | some lb =>
    if lb = "" then srcStage3 d e
    else
      if labelledByText d lb = "" then srcStage3 d e
      else some (labelledByText d lb)
  | none => srcStage3 d e

/-- Winning raw accessible-name source text of an element: the text of the
first signal in the priority chain that fires, before normalization. -/
def nameSource (d : Doc) (e : Elem) : Option String :=
  match getAttr e "aria-label" with
  | some s => if s = "" then srcStage2 d e else some s
  | none => srcStage2 d e

/-- Resolved data-testid signal: the first truthy value among the
data-testid attribute, the data-test-id attribute and the dataset testid
entry, following the JavaScript or-chain. -/
def testIdOf (e : Elem) : Option String :=
  if truthyOpt (getAttr e "data-testid") then getAttr e "data-testid"
  else if truthyOpt (getAttr e "data-test-id") then getAttr e "data-test-id"
  else e.datasetTestid

/-- Index of the first marked entry of a list, modelling indexOf on an array
whose elements are compared by identity: the mark singles out the element
itself among its similarly tagged siblings. -/
def findIdxTrue : List (Bool × String) → Option Nat
  | [] => none
  | p :: rest => if p.1 then some 0 else (findIdxTrue rest).map (· + 1)

/-- Translation of getSiblingIndex: zero without a parent element; otherwise
one plus the position of the element inside the list of children of the
parent that carry the same tagName.  The children list is rebuilt from the
sibling tag lists with the element itself marked, so that the identity
based indexOf of the source becomes the index of the marked entry. -/
def getSiblingIndex (n : CNode) (parent : Chain) : Nat :=
  match parent with
  | Chain.nil => 0
  | Chain.cons _ _ =>
    match
      findIdxTrue
        (((n.sibBefore.map (fun t => (false, t)))
            ++ (true, n.tag) :: n.sibAfter.map (fun t => (false, t))).filter
          (fun p => p.2 == n.tag)) with
    | some i => i + 1
    | none => 0

/-- Class segment of a CSS path part: a dot-joined list of the first two
escaped classList entries when the className string is truthy. -/
def classPartOf (n : CNode) : String :=
  if n.className ≠ "" then
    "." ++ String.intercalate "." ((n.classList.take 2).map cssEscape)
  else ""

/-- Nth-of-type segment of a CSS path part: present exactly when the
sibling index is positive. -/
def nthPartOf (n : CNode) (parent : Chain) : String :=
  if getSiblingIndex n parent > 0 then
    ":nth-of-type(" ++ toString (getSiblingIndex n parent) ++ ")"
  else ""

/-- Translation of the ancestor loop of buildCssSelector: walks the chain
while the current node exists, its tag is not html, and fewer than four
levels have been collected, emitting tag, class and nth-of-type segments.
The source prepends each part; here the innermost-first list is reversed by
the caller before joining. -/
def cssWalk : Chain → Nat → List String
  | Chain.nil, _ => []
  | Chain.cons n parent, depth =>
    if strToLower n.tag = "html" ∨ 4 ≤ depth then []
    else (strToLower n.tag ++ classPartOf n ++ nthPartOf n parent)
      :: cssWalk parent (depth + 1)

/-- Translation of buildCssSelector: an escaped id selector when the element
has an id; otherwise the joined ancestor walk, with the bare lowercased tag
as a last resort when the joined string is empty. -/
def buildCssSelector (e : Elem) : String :=
  if e.id ≠ "" then "#" ++ cssEscape e.id
  else
    if String.intercalate " > " ((cssWalk (Chain.cons e.cnode e.parent) 0).reverse) = ""
    then strToLower e.cnode.tag
    else String.intercalate " > " ((cssWalk (Chain.cons e.cnode e.parent) 0).reverse)

/-- Translation of buildSelectors: candidates are appended in the fixed
order byRole, byLabel, byPlaceholder, byTestId, byText, each behind the
truthiness test of its signal, and the CSS fallback is always appended
last. -/
def buildSelectors (d : Doc) (e : Elem) (role name : Option String) :
    List SelectorCandidate :=
  (if truthyOpt role then
    (if truthyOpt name then
      [⟨SelKind.byRole,
        "getByRole(\x27" ++ escapeQuotes (role.getD "") ++ "\x27, \x7b name: \x27"
          ++ escapeQuotes (name.getD "") ++ "\x27 \x7d)",
        "Accessible role + name"⟩]
    else
      [⟨SelKind.byRole, "getByRole(\x27" ++ escapeQuotes (role.getD "") ++ "\x27)",
        "Accessible role"⟩])
  else [])
  ++ (match findLabelText d e with
    | some t =>
      if t ≠ "" then
        [⟨SelKind.byLabel,
          "getByLabel(\x27" ++ escapeQuotes (normalizeWhitespace t) ++ "\x27)",
          "Associated label"⟩]
      else []
    | none => [])
  ++ (match getAttr e "placeholder" with
    | some p =>
      if p ≠ "" then
        [⟨SelKind.byPlaceholder,
          "getByPlaceholder(\x27" ++ escapeQuotes (normalizeWhitespace p) ++ "\x27)",
          "Placeholder text"⟩]
      else []
    | none => [])
  ++ (match testIdOf e with
    | some t =>
      if t ≠ "" then
        [⟨SelKind.byTestId, "getByTestId(\x27" ++ escapeQuotes t ++ "\x27)",
          "data-testid"⟩]
      else []
    | none => [])
  ++ (if normalizeWhitespace e.textContent ≠ "" then
      [⟨SelKind.byText,
        "getByText(\x27" ++ escapeQuotes (normalizeWhitespace e.textContent) ++ "\x27)",
        "Visible text"⟩]
    else [])
  ++ [⟨SelKind.css, buildCssSelector e, "CSS fallback"⟩]

/-- Characters kept by the key sanitizer: ASCII letters and digits,
whitespace, underscore and hyphen; every other character becomes a
space. -/
def sanitizeChars (cs : List Char) : List Char :=
  cs.map (fun c => if c.isAlphanum || c.isWhitespace || c = '_' || c = '-' then c else ' ')

/-- Collapse of every run of underscores to a single underscore, modelling
the replace of the underscore-run regex. -/
def collapseUnd : List Char → List Char
  | [] => []
  | [c] => [c]
  | c1 :: c2 :: rest =>
    if c1 = '_' ∧ c2 = '_' then collapseUnd (c2 :: rest)
    else c1 :: collapseUnd (c2 :: rest)

/-- Base text of the element key, following the or-chain name, id,
lowercased tag. -/
def keyText (e : Elem) (name : Option String) : String :=
  if truthyOpt name then name.getD ""
  else if e.id ≠ "" then e.id
  else strToLower e.cnode.tag

/-- Characters contributed by the role: the role followed by an underscore
when the role is truthy. -/
def rolePreChars (role : Option String) : List Char :=
  if truthyOpt role then (role.getD "").data ++ ['_'] else []

/-- Translation of buildElementKey: the base text is sanitized, split into
words and joined with underscores behind the role contribution, the whole
is lowercased, underscore runs are collapsed and the result is cut to forty
characters; when that is empty the key falls back to element followed by
the kind of the first candidate, or to element twice without candidates. -/
def buildElementKey (e : Elem) (role name : Option String)
    (selectors : List SelectorCandidate) : String :=
  if ((collapseUnd ((rolePreChars role
        ++ joinWith '_' (wordsOf (sanitizeChars (keyText e name).data))).map
        Char.toLower)).take 40).isEmpty then
    "element_" ++ (match selectors.head? with
      | some s => kindStr s.kind
      | none => "element")
  else
    String.mk ((collapseUnd ((rolePreChars role
      ++ joinWith '_' (wordsOf (sanitizeChars (keyText e name).data))).map
      Char.toLower)).take 40)

/-- Translation of looksDynamicText, first disjunct: some two consecutive
characters are digits. -/
def hasTwoDigits : List Char → Bool
  | c1 :: c2 :: rest => (c1.isDigit && c2.isDigit) || hasTwoDigits (c2 :: rest)
  | _ => false

/-- Translation of looksDynamicText, second disjunct: some hash character is
immediately followed by a digit. -/
def hasHashDigit : List Char → Bool
  | c1 :: c2 :: rest => (c1 = '#' && c2.isDigit) || hasHashDigit (c2 :: rest)
  | _ => false

/-- Translation of looksDynamicText: the text matches the two-digit-run
regex or the hash-digits regex. -/
def looksDynamicText (s : String) : Bool :=
  hasTwoDigits s.data || hasHashDigit s.data

/-- Translation of countElementsByText: the number of elements of the body
subtree whose normalized textContent equals the given text. -/
def countElementsByText (d : Doc) (text : String) : Nat :=
  (d.bodyTexts.filter (fun tc => normalizeWhitespace tc == text)).length

/-- Warning string A of the source. -/
def warnCss : String := "A) CSS fallback included"

/-- Warning string B of the source. -/
def warnDynamic : String := "B) Text looks dynamic (numbers or variable tokens)"

/-- Warning string C of the source. -/
def warnShared : String := "C) Multiple elements share the same text"

/-- Translation of buildWarnings: the CSS warning when some candidate has
kind css, the dynamic-text warning when the name is truthy and looks
dynamic, and the shared-text warning when the normalized textContent is
non-empty and more than one body element carries it. -/
def buildWarnings (d : Doc) (selectors : List SelectorCandidate)
    (name : Option String) (e : Elem) : List String :=
  (if selectors.any (fun s => s.kind == SelKind.css) then [warnCss] else [])
  ++ (match name with
    | some n => if n ≠ "" ∧ looksDynamicText n then [warnDynamic] else []
    | none => [])
  ++ (if normalizeWhitespace e.textContent ≠ ""
        ∧ countElementsByText d (normalizeWhitespace e.textContent) > 1 then
      [warnShared]
    else [])

/-- Translation of getOuterHtmlSnippet: the whitespace-cleaned outerHTML
when it has at most two hundred characters, else its first two hundred
characters followed by a horizontal ellipsis character. -/
def getOuterHtmlSnippet (e : Elem) : String :=
  if (normalizeWhitespace e.outerHTML).length ≤ 200 then normalizeWhitespace e.outerHTML
  else String.mk ((normalizeWhitespace e.outerHTML).data.take 200 ++ ['…'])

/-- State read by pickTargetElement: the element recorded by the last
contextmenu event with whether the document still contains it, the active
element with whether it is the body, and the body element.  The source
types the body as always present. -/
structure PageState where
  lastRightClicked : Option Elem
  lastInDocument : Bool
  activeElement : Option Elem
  activeIsBody : Bool
  body : Elem
deriving DecidableEq

/-- Fallback of pickTargetElement past the remembered element: the active
element when present and distinct from the body, else the body. -/
def pickFallbackElement (st : PageState) : Option Elem :=
  match st.activeElement with
  | some a => if ¬ st.activeIsBody then some a else some st.body
  | none => some st.body

/-- Translation of pickTargetElement: the remembered right-clicked element
when the document still contains it, else the fallback chain. -/
def pickTargetElement (st : PageState) : Option Elem :=
  match st.lastRightClicked with
  | some e => if st.lastInDocument then some e else pickFallbackElement st
  | none => pickFallbackElement st

/-- Outcome skeleton of handleCaptureAndCopy: either the early error result
or the element handed to the capture builder.  The clipboard, snapshot and
overlay work that follows a successful pick is platform plumbing outside
the model. -/
inductive CaptureOutcome where
  | err : String → CaptureOutcome
  | success : Elem → CaptureOutcome
deriving DecidableEq

/-- Branch structure of handleCaptureAndCopy around the element pick. -/
def handleCaptureAndCopy (st : PageState) : CaptureOutcome :=
  match pickTargetElement st with
  | none => CaptureOutcome.err "No element found."
  | some t => CaptureOutcome.success t

/-! Helper lemmas shared by the claim theorems. -/

/-- Packing a valid code point and reading it back is the identity. -/
theorem char_toNat_ofNat (n : Nat) (h : n < 0xd800) : (Char.ofNat n).toNat = n := by
  rw [Char.ofNat, dif_pos (Or.inl h)]
  rfl

/-- Lower-case test through the code point. -/
theorem isLower_iff_toNat (c : Char) : c.isLower = true ↔ 97 ≤ c.toNat ∧ c.toNat ≤ 122 := by
  simp [Char.isLower, UInt32.le_def, BitVec.le_def, Char.toNat, UInt32.toNat]

/-- Upper-case test through the code point. -/
theorem isUpper_iff_toNat (c : Char) : c.isUpper = true ↔ 65 ≤ c.toNat ∧ c.toNat ≤ 90 := by
  simp [Char.isUpper, UInt32.le_def, BitVec.le_def, Char.toNat, UInt32.toNat]

/-- Digit test through the code point. -/
theorem isDigit_iff_toNat (c : Char) : c.isDigit = true ↔ 48 ≤ c.toNat ∧ c.toNat ≤ 57 := by
  simp [Char.isDigit, UInt32.le_def, BitVec.le_def, Char.toNat, UInt32.toNat]

/-- Lowering an upper-case letter yields a lower-case letter. -/
theorem toLower_isLower_of_isUpper (c : Char) (h : c.isUpper = true) :
    (Char.toLower c).isLower = true := by
  rw [isUpper_iff_toNat] at h
  rw [Char.toLower, if_pos ⟨h.1, h.2⟩, isLower_iff_toNat,
    char_toNat_ofNat _ (by omega)]
  omega

/-- Lowering fixes every character outside the upper-case range. -/
theorem toLower_eq_self (c : Char) (h : ¬ (65 ≤ c.toNat ∧ c.toNat ≤ 90)) :
    Char.toLower c = c := by
  rw [Char.toLower, if_neg h]

/-- Lowering a lower-case letter fixes it. -/
theorem toLower_of_isLower (c : Char) (h : c.isLower = true) : Char.toLower c = c := by
  rw [isLower_iff_toNat] at h
  exact toLower_eq_self c (by omega)

/-- Lowering a digit fixes it. -/
theorem toLower_of_isDigit (c : Char) (h : c.isDigit = true) : Char.toLower c = c := by
  rw [isDigit_iff_toNat] at h
  exact toLower_eq_self c (by omega)

/-- Stage seven returns the normalization of its raw source. -/
theorem nameStage7_eq (e : Elem) :
    nameStage7 e = (srcStage7 e).map normalizeWhitespace := by
  unfold nameStage7 srcStage7
  split <;> simp

/-- Stage six returns the normalization of its raw source. -/
theorem nameStage6_eq (e : Elem) :
    nameStage6 e = (srcStage6 e).map normalizeWhitespace := by
  unfold nameStage6 srcStage6
  split
  · split
    · exact nameStage7_eq e
    · simp
  · exact nameStage7_eq e

/-- Stage five returns the normalization of its raw source. -/
theorem nameStage5_eq (e : Elem) :
    nameStage5 e = (srcStage5 e).map normalizeWhitespace := by
  unfold nameStage5 srcStage5
  split
  · split
    · exact nameStage6_eq e
    · simp
  · exact nameStage6_eq e

/-- Stage four returns the normalization of its raw source. -/
theorem nameStage4_eq (d : Doc) (e : Elem) :
    nameStage4 d e = (srcStage4 d e).map normalizeWhitespace := by
  unfold nameStage4 srcStage4
  split
  · split
    · exact nameStage5_eq e
    · simp
  · exact nameStage5_eq e

/-- Stage three returns the normalization of its raw source. -/
theorem nameStage3_eq (d : Doc) (e : Elem) :
    nameStage3 d e = (srcStage3 d e).map normalizeWhitespace := by
  unfold nameStage3 srcStage3
  split
  · split
    · split
      · exact nameStage4_eq d e
      · simp
    · exact nameStage4_eq d e
  · exact nameStage4_eq d e

/-- Stage two returns the normalization of its raw source. -/
theorem nameStage2_eq (d : Doc) (e : Elem) :
    nameStage2 d e = (srcStage2 d e).map normalizeWhitespace := by
  unfold nameStage2 srcStage2
  split
  · split
    · exact nameStage3_eq d e
    · split
      · exact nameStage3_eq d e
      · simp
  · exact nameStage3_eq d e

/-- Accessible-name resolution returns exactly the normalization of the
winning raw source text. -/
theorem getAccessibleName_eq_nameSource (d : Doc) (e : Elem) :
    getAccessibleName d e = (nameSource d e).map normalizeWhitespace := by
  unfold getAccessibleName nameSource
  split
  · split
    · exact nameStage2_eq d e
    · simp
  · exact nameStage2_eq d e

/-- Collapsing underscore runs only keeps characters of the input. -/
theorem mem_collapseUnd : ∀ (cs : List Char) (c : Char), c ∈ collapseUnd cs → c ∈ cs
  | [], c, h => by simp [collapseUnd] at h
  | [a], c, h => by simpa [collapseUnd] using h
  | a :: b :: rest, c, h => by
    rw [collapseUnd] at h
    split at h
    · exact List.mem_cons_of_mem a (mem_collapseUnd (b :: rest) c h)
    · rcases List.mem_cons.mp h with h1 | h2
      · simp [h1]
      · exact List.mem_cons_of_mem a (mem_collapseUnd (b :: rest) c h2)

/-- Characters of a joined token list are the separator or token characters. -/
theorem mem_joinWith : ∀ (sep : Char) (ws : List (List Char)) (c : Char),
    c ∈ joinWith sep ws → c = sep ∨ ∃ w ∈ ws, c ∈ w
  | _, [], c, h => by simp [joinWith] at h
  | sep, [w], c, h => by
    have hj : joinWith sep [w] = w := rfl
    rw [hj] at h
    exact Or.inr ⟨w, by simp, h⟩
  | sep, w :: v :: ws, c, h => by
    have hj : joinWith sep (w :: v :: ws) = w ++ sep :: joinWith sep (v :: ws) := rfl
    rw [hj] at h
    rcases List.mem_append.mp h with h1 | h2
    · exact Or.inr ⟨w, by simp, h1⟩
    · rcases List.mem_cons.mp h2 with h3 | h4
      · exact Or.inl h3
      · rcases mem_joinWith sep (v :: ws) c h4 with h5 | ⟨u, hu, hcu⟩
        · exact Or.inl h5
        · exact Or.inr ⟨u, List.mem_cons_of_mem w hu, hcu⟩

/-- Characters of the tokens of wordsAux are non-whitespace characters of
the input or of the (non-whitespace) accumulator. -/
theorem wordsAux_chars : ∀ (cs acc : List Char),
    (∀ c ∈ acc, c.isWhitespace = false) →
    ∀ w ∈ wordsAux cs acc, ∀ c ∈ w, c.isWhitespace = false ∧ (c ∈ cs ∨ c ∈ acc)
  | [], acc, hacc, w, hw, c, hc => by
    rw [wordsAux] at hw
    split at hw
    · simp at hw
    · rw [List.mem_singleton] at hw
      subst hw
      rw [List.mem_reverse] at hc
      exact ⟨hacc c hc, Or.inr hc⟩
  | a :: cs, acc, hacc, w, hw, c, hc => by
    by_cases haw : a.isWhitespace = true
    · rw [wordsAux, if_pos haw] at hw
      have hres : w = acc.reverse ∨ w ∈ wordsAux cs [] := by
        split at hw
        · exact Or.inr hw
        · rcases List.mem_cons.mp hw with h1 | h2
          · exact Or.inl h1
          · exact Or.inr h2
      rcases hres with h1 | h2
      · subst h1
        rw [List.mem_reverse] at hc
        exact ⟨hacc c hc, Or.inr hc⟩
      · have hrec := wordsAux_chars cs [] (by simp) w h2 c hc
        refine ⟨hrec.1, ?_⟩
        rcases hrec.2 with h | h
        · exact Or.inl (List.mem_cons_of_mem a h)
        · simp at h
    · rw [wordsAux, if_neg haw] at hw
      have hrec := wordsAux_chars cs (a :: acc)
        (by
          intro x hx
          rcases List.mem_cons.mp hx with h1 | h2
          · subst h1
            simpa using haw
          · exact hacc x h2) w hw c hc
      refine ⟨hrec.1, ?_⟩
      rcases hrec.2 with h | h
      · exact Or.inl (List.mem_cons_of_mem a h)
      · rcases List.mem_cons.mp h with h1 | h2
        · subst h1
          exact Or.inl (List.mem_cons_self _ _)
        · exact Or.inr h2

/-- Characters of the sanitized text are kept characters or spaces. -/
theorem mem_sanitizeChars (cs : List Char) (c : Char) (h : c ∈ sanitizeChars cs) :
    c = ' ' ∨ (c.isAlphanum || c.isWhitespace || c = '_' || c = '-') = true := by
  rcases List.mem_map.mp h with ⟨a, _, ha⟩
  by_cases hk : (a.isAlphanum || a.isWhitespace || a = '_' || a = '-') = true
  · right
    rwa [← ha, if_pos hk]
  · left
    rw [← ha, if_neg hk]

/-- Index search of the marked entry when all earlier entries are unmarked:
the filtered children list locates the element after exactly the preceding
same-tag siblings. -/
theorem findIdxTrue_marked (before after : List String) (tag : String) :
    findIdxTrue
      ((((before.map (fun t => (false, t)))
          ++ (true, tag) :: after.map (fun t => (false, t))).filter
        (fun p => p.2 == tag)))
      = some (before.countP (fun t => t == tag)) := by
  induction before with
  | nil =>
    simp only [List.map_nil, List.nil_append, List.filter_cons]
    simp [findIdxTrue]
  | cons hd tl ih =>
    simp only [List.map_cons, List.cons_append, List.filter_cons]
    by_cases hhd : (hd == tag) = true
    · simp only [hhd, if_pos]
      rw [findIdxTrue]
      simp only [if_neg (by simp : ¬ (false = true))]
      rw [ih]
      simp [List.countP_cons, hhd]
    · simp only [hhd]
      rw [if_neg (by simp : ¬ (false = true))]
      rw [ih]
      simp [List.countP_cons, hhd]

/-- Sibling index with a parent element: one plus the number of preceding
siblings with the same tagName. -/
theorem getSiblingIndex_cons (n : CNode) (p : CNode) (rest : Chain) :
    getSiblingIndex n (Chain.cons p rest)
      = (n.sibBefore.countP (fun t => t == n.tag)) + 1 := by
  unfold getSiblingIndex
  rw [findIdxTrue_marked]

/-- Sibling index without a parent element is zero. -/
theorem getSiblingIndex_nil (n : CNode) : getSiblingIndex n Chain.nil = 0 := rfl

/-- Appending on the left preserves a two-consecutive-digit match. -/
theorem hasTwoDigits_append (l cs : List Char) (h : hasTwoDigits cs = true) :
    hasTwoDigits (l ++ cs) = true := by
  induction l with
  | nil => rwa [List.nil_append]
  | cons a l ih =>
    have hne : ∃ y t, l ++ cs = y :: t := by
      cases hl : l ++ cs with
      | nil =>
        exfalso
        rcases List.append_eq_nil.mp hl with ⟨_, hcs⟩
        subst hcs
        simp [hasTwoDigits] at h
      | cons y t => exact ⟨y, t, rfl⟩
    rcases hne with ⟨y, t, hyt⟩
    rw [List.cons_append, hyt, hasTwoDigits, ← hyt, ih]
    simp

/-- Two-consecutive-digit test characterized by a list split. -/
theorem hasTwoDigits_iff (cs : List Char) :
    hasTwoDigits cs = true
      ↔ ∃ l c1 c2 r, cs = l ++ c1 :: c2 :: r ∧ c1.isDigit = true ∧ c2.isDigit = true := by
  constructor
  · intro h
    induction cs with
    | nil => simp [hasTwoDigits] at h
    | cons a tl ih =>
      cases tl with
      | nil => simp [hasTwoDigits] at h
      | cons b rest =>
        rw [hasTwoDigits, Bool.or_eq_true, Bool.and_eq_true] at h
        rcases h with ⟨h1, h2⟩ | h
        · exact ⟨[], a, b, rest, rfl, h1, h2⟩
        · rcases ih h with ⟨l, c1, c2, r, heq, hd1, hd2⟩
          exact ⟨a :: l, c1, c2, r, by rw [heq]; rfl, hd1, hd2⟩
  · rintro ⟨l, c1, c2, r, heq, hd1, hd2⟩
    subst heq
    apply hasTwoDigits_append
    simp [hasTwoDigits, hd1, hd2]

/-- Appending on the left preserves a hash-digit match. -/
theorem hasHashDigit_append (l cs : List Char) (h : hasHashDigit cs = true) :
    hasHashDigit (l ++ cs) = true := by
  induction l with
  | nil => rwa [List.nil_append]
  | cons a l ih =>
    have hne : ∃ y t, l ++ cs = y :: t := by
      cases hl : l ++ cs with
      | nil =>
        exfalso
        rcases List.append_eq_nil.mp hl with ⟨_, hcs⟩
        subst hcs
        simp [hasHashDigit] at h
      | cons y t => exact ⟨y, t, rfl⟩
    rcases hne with ⟨y, t, hyt⟩
    rw [List.cons_append, hyt, hasHashDigit, ← hyt, ih]
    simp

/-- Hash-digit test characterized by a list split. -/
theorem hasHashDigit_iff (cs : List Char) :
    hasHashDigit cs = true
      ↔ ∃ l c r, cs = l ++ '#' :: c :: r ∧ c.isDigit = true := by
  constructor
  · intro h
    induction cs with
    | nil => simp [hasHashDigit] at h
    | cons a tl ih =>
      cases tl with
      | nil => simp [hasHashDigit] at h
      | cons b rest =>
        rw [hasHashDigit, Bool.or_eq_true, Bool.and_eq_true] at h
        rcases h with ⟨h1, h2⟩ | h
        · refine ⟨[], b, rest, ?_, h2⟩
          rw [decide_eq_true_eq] at h1
          rw [h1]
          rfl
        · rcases ih h with ⟨l, c, r, heq, hd⟩
          exact ⟨a :: l, c, r, by rw [heq]; rfl, hd⟩
  · rintro ⟨l, c, r, heq, hd⟩
    subst heq
    apply hasHashDigit_append
    simp [hasHashDigit, hd]

/-! Claim theorems, counterexamples and witnesses. -/

set_option maxRecDepth 100000

/-- Fallback chain of the element pick always produces an element. -/
theorem pickFallbackElement_isSome (st : PageState) :
    ∃ t, pickFallbackElement st = some t := by
  unfold pickFallbackElement
  cases ha : st.activeElement with
  | none => exact ⟨st.body, rfl⟩
  | some a =>
    by_cases hb : st.activeIsBody
    · exact ⟨st.body, by simp [hb]⟩
    · exact ⟨a, by simp [hb]⟩

/-- C10: pickTargetElement always returns an element, falling back to the
active element and finally to the body, so the no-element error branch of
handleCaptureAndCopy is unreachable and every capture request proceeds with
a target element. -/
theorem pickTargetElement_total (st : PageState) :
    (∃ t, pickTargetElement st = some t)
    ∧ handleCaptureAndCopy st ≠ CaptureOutcome.err "No element found."
    ∧ (∃ t, handleCaptureAndCopy st = CaptureOutcome.success t) := by
  have hpick : ∃ t, pickTargetElement st = some t := by
    unfold pickTargetElement
    cases hl : st.lastRightClicked with
    | none => exact pickFallbackElement_isSome st
    | some e =>
      by_cases hd : st.lastInDocument
      · exact ⟨e, by simp [hd]⟩
      · have := pickFallbackElement_isSome st
        simpa [hd] using this
  rcases hpick with ⟨t, ht⟩
  refine ⟨⟨t, ht⟩, ?_, ⟨t, ?_⟩⟩
  · unfold handleCaptureAndCopy
    rw [ht]
    simp
  · unfold handleCaptureAndCopy
    rw [ht]

/-- Concrete button element carrying an explicit empty role attribute. -/
def emptyRoleButton : Elem :=
  ⟨⟨"BUTTON", "", [], [], []⟩, Chain.nil, "", [("role", "")], "", false, false,
   true, "", "<button role=></button>", none, none⟩

/-- C4 counterexample: an element whose explicit role attribute is the empty
string is not resolved to that attribute value verbatim; the empty value is
falsy, so the tag table answers instead. -/
theorem getRole_empty_attr_cex :
    getAttr emptyRoleButton "role" = some ""
    ∧ getRole emptyRoleButton = some "button"
    ∧ getRole emptyRoleButton ≠ getAttr emptyRoleButton "role" := by
  refine ⟨by decide, by decide, by decide⟩

/-- C4 amended: a present and non-empty role attribute is returned verbatim;
with an absent or empty role attribute the fixed tag and input-type table
decides, and unmapped tags resolve to null. -/
theorem getRole_spec (e : Elem) :
    (∀ r, getAttr e "role" = some r → r ≠ "" → getRole e = some r)
    ∧ (truthyOpt (getAttr e "role") = false →
        (strToLower e.cnode.tag = "button" → getRole e = some "button")
        ∧ (strToLower e.cnode.tag = "a" → e.hrefTruthy = true → getRole e = some "link")
        ∧ (strToLower e.cnode.tag = "a" → e.hrefTruthy = false → getRole e = none)
        ∧ (strToLower e.cnode.tag = "img" → getRole e = some "img")
        ∧ (strToLower e.cnode.tag = "input" →
            (e.inputType = "checkbox" → getRole e = some "checkbox")
            ∧ (e.inputType = "radio" → getRole e = some "radio")
            ∧ (e.inputType = "submit" ∨ e.inputType = "button" →
                getRole e = some "button")
            ∧ (e.inputType ≠ "checkbox" → e.inputType ≠ "radio" →
                e.inputType ≠ "submit" → e.inputType ≠ "button" →
                getRole e = some "textbox"))
        ∧ (strToLower e.cnode.tag = "textarea" → getRole e = some "textbox")
        ∧ (strToLower e.cnode.tag = "select" → getRole e = some "combobox")
        ∧ (strToLower e.cnode.tag ∉
            (["button", "a", "img", "input", "textarea", "select"] : List String) →
            getRole e = none)) := by
  constructor
  · intro r hr hne
    have ht : truthyOpt (getAttr e "role") = true := by
      rw [hr]
      simpa [truthyOpt] using hne
    rw [getRole, if_pos ht, hr]
  · intro hf
    rw [getRole, if_neg (by simp [hf])]
    refine ⟨?_, ?_, ?_, ?_, ?_, ?_, ?_, ?_⟩
    · intro h; simp [h]
    · intro h hh; simp [h, hh]
    · intro h hh; simp [h, hh]
    · intro h; simp [h]
    · intro h
      refine ⟨?_, ?_, ?_, ?_⟩
      · intro hi; simp [h, hi]
      · intro hi; simp [h, hi]
      · rintro (hi | hi) <;> simp [h, hi]
      · intro h1 h2 h3 h4
        simp [h, h1, h2, h3, h4]
    · intro h; simp [h]
    · intro h; simp [h]
    · intro h
      simp only [List.mem_cons, List.not_mem_nil, or_false, not_or] at h
      obtain ⟨h1, h2, h3, h4, h5, h6⟩ := h
      simp [h1, h2, h3, h4, h5, h6]

/-- C4 witness: the amended role theorem applied to a checkbox input without
a role attribute. -/
theorem getRole_spec_witness :
    getRole ⟨⟨"INPUT", "", [], [], []⟩, Chain.nil, "", [], "checkbox", false,
      false, true, "", "", none, none⟩ = some "checkbox" :=
  ((getRole_spec _).2 (by decide)).2.2.2.2.1 (by decide) |>.1 (by decide)

/-- Concrete paragraph element whose cleaned outerHTML has 257 characters. -/
def longHtmlElem : Elem :=
  ⟨⟨"P", "", [], [], []⟩, Chain.nil, "", [], "", false, false, true, "",
   String.mk ('<' :: 'p' :: '>' :: (List.replicate 250 'a' ++ ['<', '/', 'p', '>'])),
   none, none⟩

/-- C6 counterexample: when the cleaned outerHTML exceeds two hundred
characters the emitted snippet has two hundred and one characters, so the
snippet is not bounded by two hundred. -/
theorem getOuterHtmlSnippet_cex :
    (getOuterHtmlSnippet longHtmlElem).length = 201
    ∧ ¬ (getOuterHtmlSnippet longHtmlElem).length ≤ 200 := by
  refine ⟨by decide, by decide⟩

/-- C6 amended: the snippet has at most two hundred and one characters; a
cleaned outerHTML of at most two hundred characters is returned whole, and
a longer one is cut to its first two hundred characters followed by an
ellipsis character, for exactly two hundred and one characters ending in
the ellipsis. -/
theorem getOuterHtmlSnippet_spec (e : Elem) :
    (getOuterHtmlSnippet e).length ≤ 201
    ∧ ((normalizeWhitespace e.outerHTML).length ≤ 200 →
        getOuterHtmlSnippet e = normalizeWhitespace e.outerHTML)
    ∧ (200 < (normalizeWhitespace e.outerHTML).length →
        (getOuterHtmlSnippet e).length = 201
        ∧ (getOuterHtmlSnippet e).data.getLast? = some '…') := by
  by_cases hle : (normalizeWhitespace e.outerHTML).length ≤ 200
  · rw [getOuterHtmlSnippet, if_pos hle]
    exact ⟨by omega, fun _ => rfl, fun hgt => absurd hle (by omega)⟩
  · rw [getOuterHtmlSnippet, if_neg hle]
    push_neg at hle
    have hd : (normalizeWhitespace e.outerHTML).data.length
        = (normalizeWhitespace e.outerHTML).length := rfl
    have hlen : (String.mk ((normalizeWhitespace e.outerHTML).data.take 200
        ++ ['…'])).length = 201 := by
      rw [String.length_mk, List.length_append, List.length_take_of_le (by omega)]
      rfl
    refine ⟨by omega, fun h => absurd h (by omega), fun _ => ⟨hlen, ?_⟩⟩
    exact List.getLast?_concat _

/-- C6 witness: the amended snippet theorem applied to the long concrete
element. -/
theorem getOuterHtmlSnippet_spec_witness :
    (getOuterHtmlSnippet longHtmlElem).data.getLast? = some '…' :=
  (((getOuterHtmlSnippet_spec longHtmlElem).2.2 (by decide)).2)

/-- Concrete div that is the only child of the body. -/
def soleDivElem : Elem :=
  ⟨⟨"DIV", "", [], [], []⟩,
   Chain.cons ⟨"BODY", "", [], ["HEAD"], []⟩ (Chain.cons ⟨"HTML", "", [], [], []⟩ Chain.nil),
   "", [], "", false, false, true, "", "<div></div>", none, none⟩

/-- C5 counterexample: a div that is the only element of its tag among its
siblings still receives an nth-of-type suffix, and so does the body, so the
suffix is not omitted for elements that are unique among same-tag
siblings. -/
theorem buildCssSelector_nth_cex :
    (soleDivElem.cnode.sibBefore ++ soleDivElem.cnode.sibAfter).countP
        (fun t => t == soleDivElem.cnode.tag) = 0
    ∧ buildCssSelector soleDivElem = "body:nth-of-type(1) > div:nth-of-type(1)"
    ∧ buildCssSelector soleDivElem ≠ "body > div" := by
  refine ⟨by decide, by decide, by decide⟩

/-- C5 amended: each emitted segment of the CSS fallback walk carries an
nth-of-type index equal to one plus the number of preceding same-tag
siblings, which is the one-based position of the element among the same-tag
children of its parent; the suffix is omitted exactly when the node has no
parent element, not when the element is merely unique among its same-tag
siblings. -/
theorem cssWalk_segment_spec (n : CNode) (parent : Chain) (depth : Nat) :
    (getSiblingIndex n Chain.nil = 0)
    ∧ (parent ≠ Chain.nil →
        getSiblingIndex n parent = (n.sibBefore.countP (fun t => t == n.tag)) + 1)
    ∧ (¬ (strToLower n.tag = "html" ∨ 4 ≤ depth) →
        cssWalk (Chain.cons n parent) depth =
          (strToLower n.tag ++ classPartOf n
            ++ (if parent = Chain.nil then ""
              else ":nth-of-type("
                ++ toString ((n.sibBefore.countP (fun t => t == n.tag)) + 1) ++ ")"))
          :: cssWalk parent (depth + 1)) := by
  refine ⟨rfl, ?_, ?_⟩
  · intro hp
    cases parent with
    | nil => exact absurd rfl hp
    | cons p rest => exact getSiblingIndex_cons n p rest
  · intro hcond
    rw [cssWalk, if_neg hcond]
    congr 1
    cases parent with
    | nil =>
      simp [nthPartOf, getSiblingIndex_nil]
    | cons p rest =>
      rw [nthPartOf, getSiblingIndex_cons]
      simp

/-- C5 witness: the amended walk theorem applied to the sole div inside the
body. -/
theorem cssWalk_segment_spec_witness :
    getSiblingIndex soleDivElem.cnode soleDivElem.parent = 1
    ∧ cssWalk (Chain.cons soleDivElem.cnode soleDivElem.parent) 0
      = ["div:nth-of-type(1)", "body:nth-of-type(1)"] := by
  constructor
  · rw [(cssWalk_segment_spec soleDivElem.cnode soleDivElem.parent 0).2.1 (by decide)]
    decide
  · rw [(cssWalk_segment_spec soleDivElem.cnode soleDivElem.parent 0).2.2 (by decide)]
    decide

/-- C2: buildSelectors always returns a non-empty list whose final entry is
the CSS fallback candidate, and the kinds appear in the fixed order byRole,
byLabel, byPlaceholder, byTestId, byText, css, each non-css kind present
exactly when its signal is truthy. -/
theorem buildSelectors_spec (d : Doc) (e : Elem) (role name : Option String) :
    buildSelectors d e role name ≠ []
    ∧ (buildSelectors d e role name).getLast?
      = some ⟨SelKind.css, buildCssSelector e, "CSS fallback"⟩
    ∧ (buildSelectors d e role name).map SelectorCandidate.kind
      = ((if truthyOpt role then [SelKind.byRole] else [])
        ++ (if truthyOpt (findLabelText d e) then [SelKind.byLabel] else [])
        ++ (if truthyOpt (getAttr e "placeholder") then [SelKind.byPlaceholder] else [])
        ++ (if truthyOpt (testIdOf e) then [SelKind.byTestId] else [])
        ++ (if normalizeWhitespace e.textContent ≠ "" then [SelKind.byText] else [])
        ++ [SelKind.css]) := by
  have hlast : (buildSelectors d e role name).getLast?
      = some ⟨SelKind.css, buildCssSelector e, "CSS fallback"⟩ := by
    unfold buildSelectors
    simp [List.getLast?_append]
  have hmap : (buildSelectors d e role name).map SelectorCandidate.kind
      = ((if truthyOpt role then [SelKind.byRole] else [])
        ++ (if truthyOpt (findLabelText d e) then [SelKind.byLabel] else [])
        ++ (if truthyOpt (getAttr e "placeholder") then [SelKind.byPlaceholder] else [])
        ++ (if truthyOpt (testIdOf e) then [SelKind.byTestId] else [])
        ++ (if normalizeWhitespace e.textContent ≠ "" then [SelKind.byText] else [])
        ++ [SelKind.css]) := by
    unfold buildSelectors
    rcases hlab : findLabelText d e with _ | t <;>
      rcases hph : getAttr e "placeholder" with _ | p <;>
        rcases htid : testIdOf e with _ | ti <;>
          simp [truthyOpt, apply_ite (List.map SelectorCandidate.kind), ite_self,
            List.map_append]
  refine ⟨?_, hlast, hmap⟩
  intro h
  rw [h] at hlast
  simp at hlast

/-- Resolution skips the aria-label stage when the attribute is not truthy. -/
theorem getAccessibleName_skip1 (d : Doc) (e : Elem)
    (h : truthyOpt (getAttr e "aria-label") = false) :
    getAccessibleName d e = nameStage2 d e := by
  unfold getAccessibleName
  rcases ha : getAttr e "aria-label" with _ | s
  · simp only [ha]
  · rw [ha, truthyOpt] at h
    simp only [bne_eq_false_iff_eq] at h
    simp only [ha]
    rw [if_pos h]

/-- Resolution skips the aria-labelledby stage when the attribute is not
truthy or resolves to empty text. -/
theorem nameStage2_skip (d : Doc) (e : Elem)
    (h : ∀ lb, getAttr e "aria-labelledby" = some lb → lb = "" ∨ labelledByText d lb = "") :
    nameStage2 d e = nameStage3 d e := by
  unfold nameStage2
  rcases ha : getAttr e "aria-labelledby" with _ | lb
  · simp only [ha]
  · simp only [ha]
    rcases h lb ha with h1 | h1
    · rw [if_pos h1]
    · by_cases h2 : lb = ""
      · rw [if_pos h2]
      · rw [if_neg h2, if_pos h1]

/-- Resolution skips the alt stage when the element is not an image or the
alt attribute is not truthy. -/
theorem nameStage3_skip (d : Doc) (e : Elem)
    (h : e.isImage = true → ∀ s, getAttr e "alt" = some s → s = "") :
    nameStage3 d e = nameStage4 d e := by
  unfold nameStage3
  by_cases hi : e.isImage = true
  · rw [if_pos hi]
    rcases ha : getAttr e "alt" with _ | s
    · simp only [ha]
    · simp only [ha]
      rw [if_pos (h hi s ha)]
  · rw [if_neg hi]

/-- Resolution skips the label stage when no truthy label text is found. -/
theorem nameStage4_skip (d : Doc) (e : Elem)
    (h : ∀ t, findLabelText d e = some t → t = "") :
    nameStage4 d e = nameStage5 e := by
  unfold nameStage4
  rcases ha : findLabelText d e with _ | t
  · simp only [ha]
  · simp only [ha]
    rw [if_pos (h t ha)]

/-- Resolution skips the placeholder stage when the attribute is not truthy. -/
theorem nameStage5_skip (e : Elem)
    (h : ∀ s, getAttr e "placeholder" = some s → s = "") :
    nameStage5 e = nameStage6 e := by
  unfold nameStage5
  rcases ha : getAttr e "placeholder" with _ | s
  · simp only [ha]
  · simp only [ha]
    rw [if_pos (h s ha)]

/-- Resolution skips the title stage when the attribute is not truthy. -/
theorem nameStage6_skip (e : Elem)
    (h : ∀ s, getAttr e "title" = some s → s = "") :
    nameStage6 e = nameStage7 e := by
  unfold nameStage6
  rcases ha : getAttr e "title" with _ | s
  · simp only [ha]
  · simp only [ha]
    rw [if_pos (h s ha)]

/-- C3: accessible-name resolution tries aria-label, aria-labelledby, alt,
label, placeholder, title and own text in this strict order, the first
truthy signal winning, every returned name being the whitespace
normalization of the winning source text, and null only when no signal
fires. -/
theorem getAccessibleName_priority (d : Doc) (e : Elem) :
    (∀ s, getAccessibleName d e = some s → ∃ t, s = normalizeWhitespace t)
    ∧ (∀ s, getAttr e "aria-label" = some s → s ≠ "" →
        getAccessibleName d e = some (normalizeWhitespace s))
    ∧ (truthyOpt (getAttr e "aria-label") = false →
        ∀ lb, getAttr e "aria-labelledby" = some lb → lb ≠ "" →
          labelledByText d lb ≠ "" →
          getAccessibleName d e = some (normalizeWhitespace (labelledByText d lb)))
    ∧ (truthyOpt (getAttr e "aria-label") = false →
        (∀ lb, getAttr e "aria-labelledby" = some lb → lb = "" ∨ labelledByText d lb = "") →
        e.isImage = true →
        ∀ s, getAttr e "alt" = some s → s ≠ "" →
          getAccessibleName d e = some (normalizeWhitespace s))
    ∧ (truthyOpt (getAttr e "aria-label") = false →
        (∀ lb, getAttr e "aria-labelledby" = some lb → lb = "" ∨ labelledByText d lb = "") →
        (e.isImage = true → ∀ s, getAttr e "alt" = some s → s = "") →
        ∀ t, findLabelText d e = some t → t ≠ "" →
          getAccessibleName d e = some (normalizeWhitespace t))
    ∧ (truthyOpt (getAttr e "aria-label") = false →
        (∀ lb, getAttr e "aria-labelledby" = some lb → lb = "" ∨ labelledByText d lb = "") →
        (e.isImage = true → ∀ s, getAttr e "alt" = some s → s = "") →
        (∀ t, findLabelText d e = some t → t = "") →
        ∀ s, getAttr e "placeholder" = some s → s ≠ "" →
          getAccessibleName d e = some (normalizeWhitespace s))
    ∧ (truthyOpt (getAttr e "aria-label") = false →
        (∀ lb, getAttr e "aria-labelledby" = some lb → lb = "" ∨ labelledByText d lb = "") →
        (e.isImage = true → ∀ s, getAttr e "alt" = some s → s = "") →
        (∀ t, findLabelText d e = some t → t = "") →
        (∀ s, getAttr e "placeholder" = some s → s = "") →
        ∀ s, getAttr e "title" = some s → s ≠ "" →
          getAccessibleName d e = some (normalizeWhitespace s))
    ∧ (truthyOpt (getAttr e "aria-label") = false →
        (∀ lb, getAttr e "aria-labelledby" = some lb → lb = "" ∨ labelledByText d lb = "") →
        (e.isImage = true → ∀ s, getAttr e "alt" = some s → s = "") →
        (∀ t, findLabelText d e = some t → t = "") →
        (∀ s, getAttr e "placeholder" = some s → s = "") →
        (∀ s, getAttr e "title" = some s → s = "") →
        (trimStr e.textContent ≠ "" →
          getAccessibleName d e = some (normalizeWhitespace (trimStr e.textContent)))
        ∧ (trimStr e.textContent = "" → getAccessibleName d e = none)) := by
  refine ⟨?_, ?_, ?_, ?_, ?_, ?_, ?_, ?_⟩
  · intro s h
    rw [getAccessibleName_eq_nameSource] at h
    rcases ht : nameSource d e with _ | t
    · rw [ht] at h
      simp at h
    · rw [ht] at h
      refine ⟨t, ?_⟩
      injection h with h2
      exact h2.symm
  · intro s ha hs
    unfold getAccessibleName
    simp only [ha]
    rw [if_neg hs]
  · intro h1 lb ha hlb htext
    rw [getAccessibleName_skip1 d e h1]
    unfold nameStage2
    simp only [ha]
    rw [if_neg hlb, if_neg htext]
  · intro h1 h2 hi s ha hs
    rw [getAccessibleName_skip1 d e h1, nameStage2_skip d e h2]
    unfold nameStage3
    rw [if_pos hi]
    simp only [ha]
    rw [if_neg hs]
  · intro h1 h2 h3 t ha ht
    rw [getAccessibleName_skip1 d e h1, nameStage2_skip d e h2, nameStage3_skip d e h3]
    unfold nameStage4
    simp only [ha]
    rw [if_neg ht]
  · intro h1 h2 h3 h4 s ha hs
    rw [getAccessibleName_skip1 d e h1, nameStage2_skip d e h2, nameStage3_skip d e h3,
      nameStage4_skip d e h4]
    unfold nameStage5
    simp only [ha]
    rw [if_neg hs]
  · intro h1 h2 h3 h4 h5 s ha hs
    rw [getAccessibleName_skip1 d e h1, nameStage2_skip d e h2, nameStage3_skip d e h3,
      nameStage4_skip d e h4, nameStage5_skip e h5]
    unfold nameStage6
    simp only [ha]
    rw [if_neg hs]
  · intro h1 h2 h3 h4 h5 h6
    rw [getAccessibleName_skip1 d e h1, nameStage2_skip d e h2, nameStage3_skip d e h3,
      nameStage4_skip d e h4, nameStage5_skip e h5, nameStage6_skip e h6]
    unfold nameStage7
    constructor
    · intro ht
      rw [if_neg ht]
    · intro ht
      rw [if_pos ht]

/-- Concrete input element with both an aria-label and a placeholder. -/
def bothSignalsInput : Elem :=
  ⟨⟨"INPUT", "", [], [], []⟩, Chain.nil, "", [("aria-label", "A"), ("placeholder", "B")],
   "text", false, false, true, "", "", none, none⟩

/-- C3 witness: the priority theorem applied to an element carrying both
aria-label A and placeholder B resolves the name to A. -/
theorem getAccessibleName_priority_witness :
    getAccessibleName ⟨[], [], []⟩ bothSignalsInput = some "A" :=
  (getAccessibleName_priority ⟨[], [], []⟩ bothSignalsInput).2.1 "A" (by decide) (by decide)

/-- Equality with the empty string through the character list. -/
theorem string_eq_empty_iff (s : String) : s = "" ↔ s.data = [] := by
  constructor
  · intro h
    rw [h]
  · intro h
    cases s with
    | mk data =>
      cases h
      rfl

/-- C7: the shared-text warning is emitted exactly when the normalized
textContent is non-empty and more than one element of the body subtree has
the identical normalized textContent. -/
theorem buildWarnings_sharedText_iff (d : Doc) (sels : List SelectorCandidate)
    (name : Option String) (e : Elem) :
    warnShared ∈ buildWarnings d sels name e
      ↔ (normalizeWhitespace e.textContent ≠ ""
        ∧ 1 < countElementsByText d (normalizeWhitespace e.textContent)) := by
  unfold buildWarnings
  have hAC : warnShared ≠ warnCss := by decide
  have hBC : warnShared ≠ warnDynamic := by decide
  constructor
  · intro h
    rcases List.mem_append.mp h with h1 | h2
    · rcases List.mem_append.mp h1 with h3 | h4
      · exfalso
        by_cases hc : sels.any (fun s => s.kind == SelKind.css) = true
        · rw [if_pos hc] at h3
          exact hAC (List.mem_singleton.mp h3)
        · rw [if_neg hc] at h3
          simp at h3
      · exfalso
        rcases name with _ | n
        · simp at h4
        · by_cases hc : n ≠ "" ∧ looksDynamicText n = true
          · simp only [if_pos hc] at h4
            exact hBC (List.mem_singleton.mp h4)
          · simp only [if_neg hc] at h4
            simp at h4
    · by_cases hc : normalizeWhitespace e.textContent ≠ ""
        ∧ countElementsByText d (normalizeWhitespace e.textContent) > 1
      · exact hc
      · rw [if_neg hc] at h2
        simp at h2
  · intro hc
    refine List.mem_append.mpr (Or.inr ?_)
    rw [if_pos ⟨hc.1, hc.2⟩]
    exact List.mem_singleton.mpr rfl

/-- Concrete two-span document: both spans read Delete; the parent paragraph
holds the concatenated text. -/
def deleteDoc : Doc := ⟨[], [], ["Delete", "Delete", "DeleteDelete"]⟩

/-- Concrete first of the two sibling delete spans. -/
def deleteSpan : Elem :=
  ⟨⟨"SPAN", "", [], [], ["SPAN"]⟩,
   Chain.cons ⟨"P", "", [], [], []⟩
     (Chain.cons ⟨"BODY", "", [], ["HEAD"], []⟩
       (Chain.cons ⟨"HTML", "", [], [], []⟩ Chain.nil)),
   "", [], "", false, false, true, "Delete", "<span>Delete</span>", none, none⟩

/-- C7 witness: the shared-text theorem applied to one of two sibling spans
that both contain exactly the text Delete. -/
theorem buildWarnings_sharedText_witness :
    warnShared ∈ buildWarnings deleteDoc
      (buildSelectors deleteDoc deleteSpan (getRole deleteSpan)
        (getAccessibleName deleteDoc deleteSpan))
      (getAccessibleName deleteDoc deleteSpan) deleteSpan :=
  (buildWarnings_sharedText_iff deleteDoc
      (buildSelectors deleteDoc deleteSpan (getRole deleteSpan)
        (getAccessibleName deleteDoc deleteSpan))
      (getAccessibleName deleteDoc deleteSpan) deleteSpan).mpr
    ⟨by decide, by decide⟩

/-- C8: the dynamic-text warning is emitted exactly when the resolved name
is present and contains two consecutive digits or a hash immediately
followed by a digit. -/
theorem buildWarnings_dynamicText_iff (d : Doc) (sels : List SelectorCandidate)
    (name : Option String) (e : Elem) :
    warnDynamic ∈ buildWarnings d sels name e
      ↔ ∃ n, name = some n
        ∧ ((∃ l c1 c2 r, n.data = l ++ c1 :: c2 :: r
              ∧ c1.isDigit = true ∧ c2.isDigit = true)
          ∨ (∃ l c r, n.data = l ++ '#' :: c :: r ∧ c.isDigit = true)) := by
  have hstep : warnDynamic ∈ buildWarnings d sels name e
      ↔ ∃ n, name = some n ∧ n ≠ "" ∧ looksDynamicText n = true := by
    unfold buildWarnings
    have hAB : warnDynamic ≠ warnCss := by decide
    have hCB : warnDynamic ≠ warnShared := by decide
    constructor
    · intro h
      rcases List.mem_append.mp h with h1 | h2
      · rcases List.mem_append.mp h1 with h3 | h4
        · exfalso
          by_cases hc : sels.any (fun s => s.kind == SelKind.css) = true
          · rw [if_pos hc] at h3
            exact hAB (List.mem_singleton.mp h3)
          · rw [if_neg hc] at h3
            simp at h3
        · rcases hn : name with _ | n
          · rw [hn] at h4
            simp at h4
          · rw [hn] at h4
            by_cases hc : n ≠ "" ∧ looksDynamicText n = true
            · exact ⟨n, rfl, hc⟩
            · exfalso
              simp only [if_neg hc] at h4
              simp at h4
      · exfalso
        by_cases hc : normalizeWhitespace e.textContent ≠ ""
          ∧ countElementsByText d (normalizeWhitespace e.textContent) > 1
        · rw [if_pos hc] at h2
          exact hCB (List.mem_singleton.mp h2)
        · rw [if_neg hc] at h2
          simp at h2
    · rintro ⟨n, hn, hne, hdyn⟩
      refine List.mem_append.mpr (Or.inl (List.mem_append.mpr (Or.inr ?_)))
      simp only [hn]
      have hc : n ≠ "" ∧ looksDynamicText n = true := ⟨hne, hdyn⟩
      rw [if_pos hc]
      exact List.mem_singleton.mpr rfl
  rw [hstep]
  constructor
  · rintro ⟨n, hn, _, hdyn⟩
    rw [looksDynamicText, Bool.or_eq_true] at hdyn
    rcases hdyn with h | h
    · exact ⟨n, hn, Or.inl ((hasTwoDigits_iff n.data).mp h)⟩
    · exact ⟨n, hn, Or.inr ((hasHashDigit_iff n.data).mp h)⟩
  · rintro ⟨n, hn, hpat⟩
    refine ⟨n, hn, ?_, ?_⟩
    · rcases hpat with ⟨l, c1, c2, r, heq, _, _⟩ | ⟨l, c, r, heq, _⟩
      · intro hemp
        rw [string_eq_empty_iff] at hemp
        rw [hemp] at heq
        exact List.noConfusion (List.append_eq_nil.mp heq.symm).2
      · intro hemp
        rw [string_eq_empty_iff] at hemp
        rw [hemp] at heq
        exact List.noConfusion (List.append_eq_nil.mp heq.symm).2
    · rw [looksDynamicText, Bool.or_eq_true]
      rcases hpat with h | h
      · exact Or.inl ((hasTwoDigits_iff n.data).mpr h)
      · exact Or.inr ((hasHashDigit_iff n.data).mpr h)

/-- Concrete element whose visible text is the counter text Item #4821. -/
def itemCounterElem : Elem :=
  ⟨⟨"SPAN", "", [], [], []⟩,
   Chain.cons ⟨"BODY", "", [], ["HEAD"], []⟩
     (Chain.cons ⟨"HTML", "", [], [], []⟩ Chain.nil),
   "", [], "", false, false, true, "Item #4821", "<span>Item #4821</span>",
   none, none⟩

/-- C8 witness: the dynamic-text theorem applied to the element whose
visible text is Item #4821. -/
theorem buildWarnings_dynamicText_witness :
    warnDynamic ∈ buildWarnings ⟨[], [], ["Item #4821"]⟩
      (buildSelectors ⟨[], [], ["Item #4821"]⟩ itemCounterElem
        (getRole itemCounterElem)
        (getAccessibleName ⟨[], [], ["Item #4821"]⟩ itemCounterElem))
      (getAccessibleName ⟨[], [], ["Item #4821"]⟩ itemCounterElem)
      itemCounterElem :=
  (buildWarnings_dynamicText_iff ⟨[], [], ["Item #4821"]⟩
      (buildSelectors ⟨[], [], ["Item #4821"]⟩ itemCounterElem
        (getRole itemCounterElem)
        (getAccessibleName ⟨[], [], ["Item #4821"]⟩ itemCounterElem))
      (getAccessibleName ⟨[], [], ["Item #4821"]⟩ itemCounterElem)
      itemCounterElem).mpr
    ⟨"Item #4821", by decide,
      Or.inr ⟨['I', 't', 'e', 'm', ' '], '4', ['8', '2', '1'], by decide, by decide⟩⟩

/-- C9: two elements with the same resolved role whose winning
accessible-name source texts agree after whitespace normalization resolve
to the same accessible name, and with a non-degenerate normalized source
their element keys agree, or both degenerate to the synthetic element
fallback. -/
theorem name_key_roundTrip (d1 d2 : Doc) (e1 e2 : Elem) (s1 s2 : String)
    (sels1 sels2 : List SelectorCandidate)
    (h1 : nameSource d1 e1 = some s1) (h2 : nameSource d2 e2 = some s2)
    (hw : normalizeWhitespace s1 = normalizeWhitespace s2)
    (hr : getRole e1 = getRole e2) :
    getAccessibleName d1 e1 = getAccessibleName d2 e2
    ∧ (normalizeWhitespace s1 ≠ "" →
        buildElementKey e1 (getRole e1) (getAccessibleName d1 e1) sels1
          = buildElementKey e2 (getRole e2) (getAccessibleName d2 e2) sels2
        ∨ ((∃ t1, buildElementKey e1 (getRole e1) (getAccessibleName d1 e1) sels1
              = "element_" ++ t1)
          ∧ (∃ t2, buildElementKey e2 (getRole e2) (getAccessibleName d2 e2) sels2
              = "element_" ++ t2))) := by
  have hname1 : getAccessibleName d1 e1 = some (normalizeWhitespace s1) := by
    rw [getAccessibleName_eq_nameSource, h1]
    rfl
  have hname2 : getAccessibleName d2 e2 = some (normalizeWhitespace s2) := by
    rw [getAccessibleName_eq_nameSource, h2]
    rfl
  have hnames : getAccessibleName d1 e1 = getAccessibleName d2 e2 := by
    rw [hname1, hname2, hw]
  refine ⟨hnames, ?_⟩
  intro hne
  rw [hname1, hname2, ← hw, ← hr]
  have hkt : ∀ e : Elem, keyText e (some (normalizeWhitespace s1)) = normalizeWhitespace s1 := by
    intro e
    unfold keyText
    rw [if_pos (by simpa [truthyOpt] using hne)]
    rfl
  unfold buildElementKey
  simp only [hkt]
  by_cases hemp : ((collapseUnd ((rolePreChars (getRole e1)
      ++ joinWith '_' (wordsOf (sanitizeChars (normalizeWhitespace s1).data))).map
      Char.toLower)).take 40).isEmpty = true
  · rw [if_pos hemp, if_pos hemp]
    exact Or.inr ⟨⟨_, rfl⟩, ⟨_, rfl⟩⟩
  · rw [if_neg hemp, if_neg hemp]
    exact Or.inl rfl

/-- Concrete button whose aria-label contains doubled interior spacing. -/
def spacedButton1 : Elem :=
  ⟨⟨"BUTTON", "", [], [], []⟩, Chain.nil, "", [("aria-label", "Submit  Order")],
   "", false, false, true, "", "", none, none⟩

/-- Concrete button whose aria-label carries single spacing and outer
padding. -/
def spacedButton2 : Elem :=
  ⟨⟨"BUTTON", "", [], ["BUTTON"], []⟩,
   Chain.cons ⟨"BODY", "", [], ["HEAD"], []⟩ Chain.nil, "", [("aria-label", " Submit Order ")],
   "", false, false, true, "", "", none, none⟩

/-- C9 witness: the round-trip theorem applied to two buttons whose labels
differ only in whitespace yields the same name and the same key. -/
theorem name_key_roundTrip_witness :
    getAccessibleName ⟨[], [], []⟩ spacedButton1
      = getAccessibleName ⟨[], [], []⟩ spacedButton2
    ∧ buildElementKey spacedButton1 (getRole spacedButton1)
        (getAccessibleName ⟨[], [], []⟩ spacedButton1) []
      = buildElementKey spacedButton2 (getRole spacedButton2)
        (getAccessibleName ⟨[], [], []⟩ spacedButton2) [] := by
  have h := name_key_roundTrip ⟨[], [], []⟩ ⟨[], [], []⟩ spacedButton1 spacedButton2
    "Submit  Order" " Submit Order " [] [] (by decide) (by decide) (by decide) (by decide)
  refine ⟨h.1, ?_⟩
  rcases h.2 (by decide) with heq | ⟨⟨t1, hft1⟩, _⟩
  · exact heq
  · exfalso
    have : buildElementKey spacedButton1 (getRole spacedButton1)
        (getAccessibleName ⟨[], [], []⟩ spacedButton1) [] = "button_submit_order" := by decide
    rw [this] at hft1
    have hd := congrArg String.data hft1
    simp [String.data_append] at hd

/-- Concrete div with an explicit punctuated role attribute and a
hyphenated aria-label. -/
def punctRoleElem : Elem :=
  ⟨⟨"DIV", "", [], [], []⟩, Chain.nil, "", [("role", "X!"), ("aria-label", "x-y")],
   "", false, false, true, "", "<div role=\"X!\" aria-label=\"x-y\"></div>",
   none, none⟩

/-- C1 counterexample: a captured element with the explicit role X! and the
aria-label x-y receives the element key x!_x-y, which contains an
exclamation mark inherited from the unsanitized role and a hyphen kept by
the sanitizer, so the key is not restricted to lowercase letters, digits
and underscores. -/
theorem buildElementKey_charset_cex :
    buildElementKey punctRoleElem (getRole punctRoleElem)
      (getAccessibleName ⟨[], [], []⟩ punctRoleElem)
      (buildSelectors ⟨[], [], []⟩ punctRoleElem (getRole punctRoleElem)
        (getAccessibleName ⟨[], [], []⟩ punctRoleElem)) = "x!_x-y"
    ∧ ¬ (∀ c ∈ ("x!_x-y" : String).data,
        c.isLower = true ∨ c.isDigit = true ∨ c = '_') := by
  refine ⟨by decide, by decide⟩

/-- C1 amended: the element key is always non-empty and at most forty
characters; its characters are lowercase letters, digits, underscores and
hyphens, except that an explicit role attribute contributes its own
characters unsanitized (only lowercased), and except for the synthetic
fallback key element underscore kind, whose kind part can carry uppercase
letters. -/
theorem buildElementKey_spec (e : Elem) (role name : Option String)
    (sels : List SelectorCandidate) :
    buildElementKey e role name sels ≠ ""
    ∧ (buildElementKey e role name sels).length ≤ 40
    ∧ ((∀ c ∈ (buildElementKey e role name sels).data,
          c.isLower = true ∨ c.isDigit = true ∨ c = '_' ∨ c = '-'
          ∨ (∃ r, role = some r ∧ c ∈ r.data.map Char.toLower))
      ∨ ∃ t, buildElementKey e role name sels = "element_" ++ t) := by
  unfold buildElementKey
  by_cases hemp : ((collapseUnd ((rolePreChars role
      ++ joinWith '_' (wordsOf (sanitizeChars (keyText e name).data))).map
      Char.toLower)).take 40).isEmpty = true
  · rw [if_pos hemp]
    refine ⟨?_, ?_, Or.inr ⟨_, rfl⟩⟩
    · intro hcontra
      have hd := congrArg String.data hcontra
      rw [String.data_append] at hd
      exact List.noConfusion hd
    · rcases hh : sels.head? with _ | s
      · simp only [hh]
        decide
      · simp only [hh]
        rcases s with ⟨k, sel, rsn⟩
        rcases k
        · exact (by decide : ("element_" ++ kindStr SelKind.byRole).length ≤ 40)
        · exact (by decide : ("element_" ++ kindStr SelKind.byLabel).length ≤ 40)
        · exact (by decide : ("element_" ++ kindStr SelKind.byPlaceholder).length ≤ 40)
        · exact (by decide : ("element_" ++ kindStr SelKind.byTestId).length ≤ 40)
        · exact (by decide : ("element_" ++ kindStr SelKind.byText).length ≤ 40)
        · exact (by decide : ("element_" ++ kindStr SelKind.css).length ≤ 40)
  · rw [if_neg hemp]
    refine ⟨?_, ?_, Or.inl ?_⟩
    · rw [Ne, string_eq_empty_iff]
      intro hnil
      rw [show (String.mk ((collapseUnd ((rolePreChars role
          ++ joinWith '_' (wordsOf (sanitizeChars (keyText e name).data))).map
          Char.toLower)).take 40)).data
        = (collapseUnd ((rolePreChars role
          ++ joinWith '_' (wordsOf (sanitizeChars (keyText e name).data))).map
          Char.toLower)).take 40 from rfl] at hnil
      rw [hnil] at hemp
      simp at hemp
    · rw [String.length_mk]
      exact List.length_take_le 40 _
    · intro c hc
      have hc1 : c ∈ (collapseUnd ((rolePreChars role
          ++ joinWith '_' (wordsOf (sanitizeChars (keyText e name).data))).map
          Char.toLower)) := List.mem_of_mem_take hc
      have hc2 : c ∈ ((rolePreChars role
          ++ joinWith '_' (wordsOf (sanitizeChars (keyText e name).data))).map
          Char.toLower) := mem_collapseUnd _ c hc1
      rcases List.mem_map.mp hc2 with ⟨c0, hc0, hlc⟩
      rcases List.mem_append.mp hc0 with hrole | hjoin
      · rw [rolePreChars] at hrole
        by_cases htr : truthyOpt role = true
        · rw [if_pos htr] at hrole
          rcases hrv : role with _ | r
          · rw [hrv] at htr
            simp [truthyOpt] at htr
          · rw [hrv] at hrole
            simp only [Option.getD_some] at hrole
            rcases List.mem_append.mp hrole with hint | hund
            · exact Or.inr (Or.inr (Or.inr (Or.inr
                ⟨r, rfl, hlc ▸ List.mem_map_of_mem Char.toLower hint⟩)))
            · rw [List.mem_singleton] at hund
              rw [← hlc, hund]
              exact Or.inr (Or.inr (Or.inl (by decide)))
        · rw [if_neg htr] at hrole
          simp at hrole
      · rcases mem_joinWith '_' _ c0 hjoin with hsep | ⟨w, hw, hcw⟩
        · rw [← hlc, hsep]
          exact Or.inr (Or.inr (Or.inl (by decide)))
        · have hch := wordsAux_chars (sanitizeChars (keyText e name).data) []
            (by simp) w hw c0 hcw
          have hnw : c0.isWhitespace = false := hch.1
          have hcin : c0 ∈ sanitizeChars (keyText e name).data := by
            rcases hch.2 with h | h
            · exact h
            · simp at h
          rcases mem_sanitizeChars _ c0 hcin with hsp | hkeep
          · exfalso
            rw [hsp] at hnw
            simp at hnw
          · rw [Bool.or_eq_true, Bool.or_eq_true, Bool.or_eq_true] at hkeep
            rcases hkeep with ((han | hws) | hu) | hh
            · rw [Char.isAlphanum, Bool.or_eq_true] at han
              rcases han with hal | hdig
              · rw [Char.isAlpha, Bool.or_eq_true] at hal
                rcases hal with hup | hlo
                · exact Or.inl (hlc ▸ toLower_isLower_of_isUpper c0 hup)
                · rw [← hlc, toLower_of_isLower c0 hlo]
                  exact Or.inl hlo
              · rw [← hlc, toLower_of_isDigit c0 hdig]
                exact Or.inr (Or.inl hdig)
            · rw [hws] at hnw
              exact absurd hnw (by simp)
            · rw [decide_eq_true_eq] at hu
              rw [← hlc, hu]
              exact Or.inr (Or.inr (Or.inl (by decide)))
            · rw [decide_eq_true_eq] at hh
              rw [← hlc, hh]
              exact Or.inr (Or.inr (Or.inr (Or.inl (by decide))))

/-- C1 witness: the amended key theorem applied to the submit-order button,
instantiating the character clause at the first key character. -/
theorem buildElementKey_spec_witness :
    buildElementKey spacedButton1 (getRole spacedButton1)
        (getAccessibleName ⟨[], [], []⟩ spacedButton1) [] ≠ ""
    ∧ (buildElementKey spacedButton1 (getRole spacedButton1)
        (getAccessibleName ⟨[], [], []⟩ spacedButton1) []).length ≤ 40 := by
  have h := buildElementKey_spec spacedButton1 (getRole spacedButton1)
    (getAccessibleName ⟨[], [], []⟩ spacedButton1) []
  exact ⟨h.1, h.2.1⟩
